import Mathlib

/-!
Verification development for the FreqCacheEmbedding training core.

Part 1 embeds the batch placement adapter and the pipelined execution
engine of `src/recsys/dlrm_main_pipeline.py` (function
`put_data_in_device` and class `TrainPipelineBase`).

Part 2 models the dual all-to-all exchange primitive.  Its implementation
is not part of the two source files (only its test driver
`src/tests/test_comm.py` is), so the operator is modelled from the
specification text and checked for consistency with the shapes used by
the test.
-/

/-! ## Part 1: devices, tensors, batches (placement adapter) -/

/-- Device class of a tensor.  The source distinguishes CPU and CUDA
devices; the engine creates its copy stream exactly when the sparse
device is a CUDA device. -/
inductive Device
  | cpu
  | cuda
deriving DecidableEq, Repr

/-- Abstraction of a dense tensor as the placement adapter sees it: a
leading (batch) dimension `rows`, the offset `off` of its first row
inside the original full tensor (so splits stay visibly contiguous), and
the device currently holding it. -/
structure PTensor where
  rows : Nat
  off : Nat
  dev : Device
deriving DecidableEq, Repr

/-- Number of rows of shard `r` produced by `torch.tensor_split(t, W, dim=0)`
on a tensor with `E` rows: the first `E % W` shards get `E / W + 1` rows,
the remaining ones get `E / W` rows.  `tensor_split` never fails and never
drops rows. -/
def tensorSplitLen (E W r : Nat) : Nat :=
  E / W + if r < E % W then 1 else 0

/-- First row (within the original tensor) of shard `r` produced by
`torch.tensor_split(t, W, dim=0)` on a tensor with `E` rows. -/
def tensorSplitStart (E W r : Nat) : Nat :=
  r * (E / W) + min r (E % W)

/-- Model of `tensor.to(device)`: the tensor relocated to `d`. -/
def PTensor.toDev (t : PTensor) (d : Device) : PTensor :=
  { t with dev := d }

/-- Model of `torch.tensor_split(t, world_size, dim=0)[rank]`. -/
def PTensor.splitShard (t : PTensor) (W r : Nat) : PTensor :=
  { rows := tensorSplitLen t.rows W r
    off := t.off + tensorSplitStart t.rows W r
    dev := t.dev }

/-- A source batch: dense features, sparse feature indices and labels,
tagged with an identity `id` so consumption order can be observed. -/
structure PBatch where
  id : Nat
  dense : PTensor
  sparse : PTensor
  labels : PTensor
deriving DecidableEq, Repr

/-- Observable operations issued while placing and pipelining a batch. -/
inductive Ev
  | pulled (id : Nat)
  | zeroGrad
  | waitStream
  | recordStream (id : Nat)
  | forward (id : Nat)
  | criterion
  | backward
  | staged (id : Nat)
  | optStep
  | toDevice (target : Device) (nonBlocking : Bool)
deriving DecidableEq, Repr

/-- Result of `put_data_in_device`.  The source returns a plain Python
3-tuple `(dense, sparse, labels)` when `is_dist` holds and returns the
mutated `Batch` object otherwise; both carry the data of source batch
`id`. -/
inductive Placed
  | tup (id : Nat) (dense sparse labels : PTensor)
  | batch (b : PBatch)
deriving DecidableEq, Repr

/-- Identity of the source batch whose data a placed value carries. -/
def Placed.srcId : Placed → Nat
  | .tup i _ _ _ => i
  | .batch b => b.id

/-- Python attribute access `placed.dense_features`: only the `Batch`
object has this attribute; a tuple does not (access raises
`AttributeError`, modelled by `none`). -/
def Placed.denseAttr : Placed → Option PTensor
  | .tup _ _ _ _ => none
  | .batch b => some b.dense

/-- Whether the placed value is the tuple form. -/
def Placed.isTup : Placed → Bool
  | .tup _ _ _ _ => true
  | .batch _ => false

/-- Device holding the dense features of a placed value. -/
def Placed.denseDev : Placed → Device
  | .tup _ d _ _ => d.dev
  | .batch b => b.dense.dev

/-- Device holding the sparse feature indices of a placed value. -/
def Placed.sparseDev : Placed → Device
  | .tup _ _ s _ => s.dev
  | .batch b => b.sparse.dev

/-- Device holding the labels of a placed value. -/
def Placed.labelsDev : Placed → Device
  | .tup _ _ _ l => l.dev
  | .batch b => b.labels.dev

/-- Leading-dimension extent of the dense features of a placed value. -/
def Placed.denseRows : Placed → Nat
  | .tup _ d _ _ => d.rows
  | .batch b => b.dense.rows

/-- Row offset of the dense features of a placed value. -/
def Placed.denseOff : Placed → Nat
  | .tup _ d _ _ => d.off
  | .batch b => b.dense.off

/-- Translation of `put_data_in_device(batch, dense_device, sparse_device,
is_dist, rank, world_size, non_blocking)` (source lines 180-188).  In the
`is_dist` branch the three `.to(...)` calls pass no `non_blocking`
argument, so they use the PyTorch default `non_blocking=False`; in the
other branch all three pass the `non_blocking` parameter.  The `.to`
events are listed in source order (dist: dense, sparse, labels;
non-dist: dense, labels, sparse). -/
def put_data_in_device (batch : PBatch) (dense_device sparse_device : Device)
    (is_dist : Bool) (rank world_size : Nat) (non_blocking : Bool) :
    Placed × List Ev :=
  if is_dist then
    (.tup batch.id (batch.dense.toDev dense_device)
      (batch.sparse.toDev sparse_device) (batch.labels.toDev dense_device),
      [.toDevice dense_device false, .toDevice sparse_device false,
       .toDevice dense_device false])
  else
    (.batch { batch with
        dense := (batch.dense.toDev dense_device).splitShard world_size rank
        labels := (batch.labels.toDev dense_device).splitShard world_size rank
        sparse := batch.sparse.toDev sparse_device },
      [.toDevice dense_device non_blocking, .toDevice dense_device non_blocking,
       .toDevice sparse_device non_blocking])

/-! ## Part 1: the pipelined execution engine (`TrainPipelineBase`) -/

/-- Python error signals the engine can surface. -/
inductive PyErr
  | stopIteration
  | assertionError
  | typeError
  | attributeError
deriving DecidableEq, Repr

/-- State of a `TrainPipelineBase` object.  `connectSlot` is `true` while
the attribute `_connect` still names the bound method; `reset()` assigns
`self._connect = False`, clobbering it (modelled by `connectSlot := false`).
`hasStream` models `self._memcpy_stream` being an actual CUDA stream. -/
structure Engine where
  curBatch : Option Placed
  connected : Bool
  connectSlot : Bool
  sparseDevice : Device
  denseDevice : Device
  hasStream : Bool
deriving DecidableEq, Repr

/-- Translation of `TrainPipelineBase.__init__`: no batch held, not
connected, copy stream present exactly when the sparse device is CUDA. -/
def mkEngine (sparseDevice denseDevice : Device) : Engine :=
  { curBatch := none
    connected := false
    connectSlot := true
    sparseDevice := sparseDevice
    denseDevice := denseDevice
    hasStream := sparseDevice = Device.cuda }

/-- Translation of `TrainPipelineBase.reset` (source lines 220-222): it
assigns `self._connect = False` — the attribute `_connect`, not
`_connected` — and clears `self._cur_batch`.  `self._connected` is left
unchanged. -/
def Engine.reset (e : Engine) : Engine :=
  { e with connectSlot := false, curBatch := none }

/-- Translation of `TrainPipelineBase._connect` (source lines 224-230):
pull the first batch and stage it with `put_data_in_device` on the copy
stream.  The source passes `(self._sparse_device, self._dense_device)`
positionally into the parameters `(dense_device, sparse_device)`, and
this model reproduces that argument order exactly.  Returns the new
state, the remaining iterator, the events issued, and the error raised
(`StopIteration` when the iterator is empty). -/
def Engine.connectRun (e : Engine) (it : List PBatch) (is_dist : Bool)
    (rank world_size : Nat) : Engine × List PBatch × List Ev × Option PyErr :=
  match it with
  | [] => (e, [], [], some .stopIteration)
  | b :: rest =>
    let pr := put_data_in_device b e.sparseDevice e.denseDevice is_dist rank world_size true
    ({ e with curBatch := some pr.1, connected := true }, rest,
      .pulled b.id :: .staged b.id :: pr.2, none)

/-- Batch identities currently stored in the engine object. -/
def heldIds (e : Engine) : List Nat :=
  match e.curBatch with
  | none => []
  | some p => [p.srcId]

/-- Duplicate-free image of a list of batch identities. -/
def dedup : List Nat → List Nat
  | [] => []
  | a :: l => if a ∈ dedup l then dedup l else a :: dedup l

/-- Number of distinct batches among the given references. -/
def distinctBatches (l : List Nat) : Nat :=
  (dedup l).length

/-- Outcome of one `progress()` call: the engine object afterwards, the
error raised (if any), the events issued, the remaining iterator, and
the trace of how many distinct batches were simultaneously held by the
engine (object attributes plus live locals of `progress`) at each
checkpoint of the call. -/
structure PRes where
  engine : Engine
  err : Option PyErr
  evs : List Ev
  rest : List PBatch
  held : List Nat
deriving DecidableEq, Repr

/-- Body of `TrainPipelineBase.progress` after the connection check
(source lines 236-273).  Checkpoints recorded in `held`: entry; after
pulling `next_batch`; after the line `self._cur_batch = next_batch`
(field aliases the local `next_batch` while the local `cur_batch` is
still live); after the staging call overwrites the field; at return
(only the field remains live).

Faithful details: the staging call at source line 267 passes `cur_batch`
— the batch just computed — to `put_data_in_device`, not `next_batch`,
and again passes the two devices in swapped positions.  When the held
value is the tuple form, the attribute accesses (`record_stream` /
`.dense_features`) raise `AttributeError`. -/
def progressBody (e : Engine) (it : List PBatch) (is_dist : Bool)
    (rank world_size : Nat) (training : Bool) (evs0 : List Ev) : PRes :=
  let h0 := distinctBatches (heldIds e)
  match it with
  | [] =>
    { engine := e, err := some .stopIteration, evs := evs0, rest := [], held := [h0] }
  | nb :: rest =>
    let h1 := distinctBatches (nb.id :: heldIds e)
    match e.curBatch with
    | none =>
      { engine := e, err := some .assertionError,
        evs := evs0 ++ [.pulled nb.id], rest := rest, held := [h0, h1] }
    | some cur =>
      let cid := cur.srcId
      let evA := evs0 ++ [.pulled nb.id] ++ (if training then [.zeroGrad] else [])
      match cur with
      | .tup _ _ _ _ =>
        { engine := e, err := some .attributeError,
          evs := evA ++ (if e.hasStream then [.waitStream] else []),
          rest := rest, held := [h0, h1] }
      | .batch cb =>
        let evB := evA ++ (if e.hasStream then [.waitStream, .recordStream cid] else [])
          ++ [.forward cid] ++ (if training then [.criterion, .backward] else [])
        let h2 := distinctBatches [nb.id, cid, nb.id]
        let pr := put_data_in_device cb e.sparseDevice e.denseDevice is_dist rank world_size true
        let h3 := distinctBatches [pr.1.srcId, cid, nb.id]
        let eOut := { e with curBatch := some pr.1 }
        { engine := eOut, err := none,
          evs := evB ++ [.staged cb.id] ++ pr.2 ++ (if training then [.optStep] else []),
          rest := rest,
          held := [h0, h1, h2, h3, distinctBatches (heldIds eOut)] }

/-- Translation of `TrainPipelineBase.progress` (source lines 232-273).
When not connected it first runs `self._connect(...)`; after `reset()`
has clobbered the `_connect` attribute with `False`, that call raises
`TypeError`. -/
def Engine.progress (e : Engine) (it : List PBatch) (is_dist : Bool)
    (rank world_size : Nat) (training : Bool) : PRes :=
  if e.connected then
    progressBody e it is_dist rank world_size training []
  else if e.connectSlot then
    let cr := e.connectRun it is_dist rank world_size
    match cr.2.2.2 with
    | some er =>
      { engine := cr.1, err := some er, evs := cr.2.2.1, rest := cr.2.1,
        held := [distinctBatches (heldIds cr.1)] }
    | none =>
      progressBody cr.1 cr.2.1 is_dist rank world_size training cr.2.2.1
  else
    { engine := e, err := some .typeError, evs := [], rest := it,
      held := [distinctBatches (heldIds e)] }

/-- Identities of the batches fed to the forward computation, in order. -/
def consumedIds (l : List Ev) : List Nat :=
  l.filterMap fun ev =>
    match ev with
    | .forward i => some i
    | _ => none

/-- Identities of the batches handed to the staging call, in order. -/
def stagedIds (l : List Ev) : List Nat :=
  l.filterMap fun ev =>
    match ev with
    | .staged i => some i
    | _ => none

/-- Whether an event is a device transfer flagged non-blocking. -/
def evNonBlockingTransfer : Ev → Bool
  | .toDevice _ nb => nb
  | _ => false

/-- Whether an event is a device transfer (of any blocking mode). -/
def evIsTransfer : Ev → Bool
  | .toDevice _ _ => true
  | _ => false

/-- A deterministic source batch with identity `n`: leading dimension 4
on CPU, matching the end-to-end scenario of the specification. -/
def mkB (n : Nat) : PBatch :=
  { id := n
    dense := { rows := 4, off := 0, dev := .cpu }
    sparse := { rows := 4, off := 0, dev := .cpu }
    labels := { rows := 4, off := 0, dev := .cpu } }

/-- The deterministic three-batch source `[B0, B1, B2]`. -/
def srcBatches : List PBatch := [mkB 0, mkB 1, mkB 2]

/-- Concrete run for claim C1: connect once on `[B0, B1, B2]` (world
size 1, non-distributed, training), then three `progress()` calls. -/
def c1run : PRes × PRes × PRes :=
  let cr := (mkEngine Device.cuda Device.cuda).connectRun srcBatches false 0 1
  let p1 := cr.1.progress cr.2.1 false 0 1 true
  let p2 := p1.engine.progress p1.rest false 0 1 true
  let p3 := p2.engine.progress p2.rest false 0 1 true
  (p1, p2, p3)

/-- Concrete run for claim C2: dense device CUDA, sparse device CPU,
non-distributed, world size 1; connect on `[B0, B1]` and run one
`progress()` call so both the connect placement and the staging
placement are exercised. -/
def c2runConnect : Engine × List PBatch × List Ev × Option PyErr :=
  (mkEngine Device.cpu Device.cuda).connectRun [mkB 0, mkB 1] false 0 1

/-- The `progress()` call following `c2runConnect`. -/
def c2runStep : PRes :=
  c2runConnect.1.progress c2runConnect.2.1 false 0 1 true

/-- Concrete run for claim C7: connect, then `reset()`, then
`progress()` with more data available. -/
def c7run : PRes :=
  let cr := (mkEngine Device.cuda Device.cuda).connectRun [mkB 0, mkB 1] false 0 1
  (Engine.reset cr.1).progress cr.2.1 false 0 1 true

/-- Concrete run for claim C7, second scenario: `reset()` before any
connection, then `progress()`. -/
def c7runFresh : PRes :=
  (Engine.reset (mkEngine Device.cuda Device.cuda)).progress [mkB 0] false 0 1 true

/-- Concrete run for claim C8: a connected engine holding `B0` whose
source is exhausted; the `progress()` call raises `StopIteration`. -/
def c8run : PRes :=
  let cr := (mkEngine Device.cuda Device.cuda).connectRun [mkB 0] false 0 1
  cr.1.progress cr.2.1 false 0 1 true

/-- Concrete run for claim C10: distributed mode, so connect stores the
tuple form; the following `progress()` call touches its attributes. -/
def c10run : PRes :=
  let cr := (mkEngine Device.cuda Device.cuda).connectRun [mkB 0, mkB 1] true 0 2
  cr.1.progress cr.2.1 true 0 2 true

/-! ## Part 2: the dual all-to-all exchange primitive

The operators `dual_all_to_all`, `ext_all_to_al_fwd` and
`ext_all_to_all_bwd` exercised by `src/tests/test_comm.py` live outside
the two source files, so the primitive is modelled from section 4.2 of
the specification. -/

/-- A tensor as a shape together with a total valuation of index
vectors; only indices valid for the shape are meaningful. -/
structure Tensor where
  shape : List Nat
  data : List Nat → Int

/-- Extent of a shape along dimension `d`. -/
def dimExt (s : List Nat) (d : Nat) : Nat := s.getD d 0

/-- An index vector is valid for a shape when it has the same length and
is pointwise below the extents. -/
def validIdx (s i : List Nat) : Prop :=
  i.length = s.length ∧ ∀ k, k < s.length → i.getD k 0 < s.getD k 0

/-- Tensor equality on the meaningful entries: same shape and same value
at every valid index (bitwise equality of the stored data). -/
def teq (t u : Tensor) : Prop :=
  t.shape = u.shape ∧ ∀ i, validIdx u.shape i → t.data i = u.data i

/-- Modelled from the spec: chunk `j` of the split of `t` into `W` equal
parts along dimension `d` (step (1) of the forward operation in section
4.2; the send phase of the exchange). -/
def chunk (W j d : Nat) (t : Tensor) : Tensor :=
  { shape := t.shape.set d (dimExt t.shape d / W)
    data := fun i => t.data (i.set d (j * (dimExt t.shape d / W) + i.getD d 0)) }

/-- Modelled from the spec: concatenation of the `W` pieces
`pieces 0, …, pieces (W-1)` along dimension `g` (step (3) of the forward
operation in section 4.2; the receive phase of the exchange).  All
pieces share the shape of `pieces 0`. -/
def concatFam (W g : Nat) (pieces : Nat → Tensor) : Tensor :=
  { shape := (pieces 0).shape.set g (W * dimExt (pieces 0).shape g)
    data := fun i =>
      (pieces (i.getD g 0 / dimExt (pieces 0).shape g)).data
        (i.set g (i.getD g 0 % dimExt (pieces 0).shape g)) }

/-- Modelled from the spec (section 4.2, missing from src/, only its test
driver is present): the collective `all_to_all(input, scatter_dim,
gather_dim)`.  `inp r` is the tensor held by worker `r`; worker `r`
receives chunk `r` of every worker along `sd` and concatenates the
received chunks along `gd` in sender order. -/
def allToAll (W sd gd : Nat) (inp : Nat → Tensor) : Nat → Tensor :=
  fun r => concatFam W gd (fun j => chunk W r sd (inp j))

/-- Failure mode of the collective. -/
inductive A2AErr
  | shapeError
deriving DecidableEq, Repr

/-- Modelled from the spec: the checked collective validates the
precondition that the extent along `scatter_dim` is evenly divisible by
the world size and fails with `ShapeError` otherwise. -/
def allToAllChecked (W sd gd : Nat) (inp : Nat → Tensor) :
    Except A2AErr (Nat → Tensor) :=
  if dimExt (inp 0).shape sd % W = 0 then .ok (allToAll W sd gd inp)
  else .error .shapeError

/-- All valid index vectors of a shape, enumerated lexicographically. -/
def idxList : List Nat → List (List Nat)
  | [] => [[]]
  | e :: rest => (List.range e).flatMap fun k => (idxList rest).map fun i => k :: i

/-- The valid index vectors of a shape as a finite set. -/
def idxFinset (s : List Nat) : Finset (List Nat) :=
  (idxList s).toFinset

/-- Inner product of two valuations over the valid indices of a shape. -/
def innerT (s : List Nat) (f g : List Nat → Int) : Int :=
  Finset.sum (idxFinset s) fun i => f i * g i

/-- Inner product of two worker families of tensors whose meaningful
entries live on shape `s`: the sum over workers of the per-worker inner
products. -/
def innerFam (W : Nat) (s : List Nat) (x y : Nat → Tensor) : Int :=
  Finset.sum (Finset.range W) fun r => innerT s (x r).data (y r).data

/-- Output shape of the forward collective on input shape `s`. -/
def a2aOutShape (W sd gd : Nat) (s : List Nat) : List Nat :=
  (s.set sd (dimExt s sd / W)).set gd (W * dimExt s gd)

/-- Concrete worker family on shape `[4, 6]` used as witness input:
worker `r` holds the value `100*r + 10*i0 + i1` at index `[i0, i1]`. -/
def wFam : Nat → Tensor :=
  fun r => { shape := [4, 6], data := fun i => 100 * r + 10 * i.getD 0 0 + i.getD 1 0 }

/-- Second concrete worker family on shape `[2, 12]` (the output shape of
`allToAll` with world size 2, scatter 0, gather 1 on `[4, 6]`). -/
def wFamOut : Nat → Tensor :=
  fun r => { shape := [2, 12], data := fun i => 7 * r + 3 * i.getD 0 0 + i.getD 1 0 }

/-- The entry-relabelling the collective performs, on (rank, index)
pairs: the entry worker `r` emits at output index `i` is the entry its
sender holds at the remapped pair.  `cEx` is the chunk extent along the
scatter dimension `sdim`, `gEx` the input extent along the gather
dimension `gdim`.  Swapping the two dimension/extent pairs gives the
relabelling of the reverse collective. -/
def a2aIdxMap (cEx gEx sdim gdim : Nat) (p : Nat × List Nat) : Nat × List Nat :=
  (p.2.getD gdim 0 / gEx,
    (p.2.set gdim (p.2.getD gdim 0 % gEx)).set sdim (p.1 * cEx + p.2.getD sdim 0))

/-- Identities of the batches pulled from the source iterator, in order. -/
def pulledIds (l : List Ev) : List Nat :=
  l.filterMap fun ev =>
    match ev with
    | .pulled i => some i
    | _ => none

/-- The connected engine of the C8 scenario, holding the staged `B0`. -/
def c8engine : Engine :=
  ((mkEngine Device.cuda Device.cuda).connectRun [mkB 0] false 0 1).1

/-! ## Helper lemmas -/

theorem dedup_length_le (l : List Nat) : (dedup l).length ≤ l.length := by
  induction l with
  | nil => simp [dedup]
  | cons a l ih =>
    simp only [dedup]
    split
    · exact le_trans ih (Nat.le_succ _)
    · simpa using ih

theorem distinct_le_length (l : List Nat) : distinctBatches l ≤ l.length :=
  dedup_length_le l

theorem distinct_single (a : Nat) : distinctBatches [a] = 1 := by
  simp [distinctBatches, dedup]

theorem distinct_aba (a b : Nat) : distinctBatches [a, b, a] ≤ 2 := by
  by_cases h : b = a <;> simp [distinctBatches, dedup, h]

theorem distinct_aab (a b : Nat) : distinctBatches [a, a, b] ≤ 2 := by
  by_cases h : a = b <;> simp [distinctBatches, dedup, h]

theorem srcId_put (b : PBatch) (dd sd : Device) (d : Bool) (r w : Nat) (nb : Bool) :
    (put_data_in_device b dd sd d r w nb).1.srcId = b.id := by
  cases d <;> rfl

theorem heldIds_le_one (e : Engine) : distinctBatches (heldIds e) ≤ 1 := by
  cases h : e.curBatch <;> simp [heldIds, h, distinctBatches, dedup]

theorem progressBody_held_le (e : Engine) (it : List PBatch) (is_dist : Bool)
    (rank W : Nat) (training : Bool) (evs0 : List Ev) :
    ∀ n ∈ (progressBody e it is_dist rank W training evs0).held, n ≤ 2 := by
  have h0 : distinctBatches (heldIds e) ≤ 1 := heldIds_le_one e
  cases it with
  | nil =>
    intro n hn
    simp [progressBody] at hn
    omega
  | cons nb rest =>
    have h1 : distinctBatches (nb.id :: heldIds e) ≤ 2 := by
      refine le_trans (distinct_le_length _) ?_
      cases h : e.curBatch <;> simp [heldIds, h]
    cases hcur : e.curBatch with
    | none =>
      intro n hn
      simp [progressBody, hcur] at hn
      rcases hn with rfl | rfl
      · omega
      · exact h1
    | some cur =>
      cases cur with
      | tup i dt st lt =>
        intro n hn
        simp [progressBody, hcur] at hn
        rcases hn with rfl | rfl
        · omega
        · exact h1
      | batch cb =>
        intro n hn
        simp [progressBody, hcur] at hn
        rcases hn with rfl | rfl | rfl | rfl | rfl
        · omega
        · exact h1
        · exact distinct_aba nb.id cb.id
        · rw [srcId_put]
          exact distinct_aab cb.id nb.id
        · simp [heldIds, distinct_single]

/-! ## Claim theorems for the placement adapter and the engine -/

/-- Claim C1 (evaluation of the code at the failing input, showing the
claim does not hold of the code): with source `[B0, B1, B2]`, one
connect and successive `progress()` calls, the engine consumes `B0`
twice — the staging call at the end of `progress()` (source line 267)
passes `cur_batch`, the batch just computed, not the freshly pulled
`next_batch` (the assignment `self._cur_batch = next_batch` at line 263
is immediately overwritten).  The first call pulls `B1` but stages `B0`;
the third call raises `StopIteration` with `B1`, `B2` never consumed. -/
theorem c1_progress_consumes_current_again :
    pulledIds c1run.1.evs = [1] ∧
    stagedIds c1run.1.evs = [0] ∧
    consumedIds (c1run.1.evs ++ c1run.2.1.evs ++ c1run.2.2.evs) = [0, 0] ∧
    c1run.1.err = none ∧
    c1run.2.2.err = some PyErr.stopIteration := by
  decide

/-- Claim C2 (evaluation of the code at the failing input, showing the
claim does not hold of the code): the engine of `c2runConnect` has dense
device CUDA and sparse device CPU, but both the `_connect` placement and
the staging placement inside `progress()` pass
`(self._sparse_device, self._dense_device)` positionally into the
parameters `(dense_device, sparse_device)` of `put_data_in_device`, so
the dense features and labels end up on the sparse target (CPU) and the
sparse indices on the dense target (CUDA) — the opposite of the claim. -/
theorem c2_devices_swapped_at_engine_call_sites :
    c2runConnect.1.denseDevice = Device.cuda ∧
    c2runConnect.1.sparseDevice = Device.cpu ∧
    c2runConnect.1.curBatch.map Placed.denseDev = some Device.cpu ∧
    c2runConnect.1.curBatch.map Placed.labelsDev = some Device.cpu ∧
    c2runConnect.1.curBatch.map Placed.sparseDev = some Device.cuda ∧
    c2runStep.engine.curBatch.map Placed.denseDev = some Device.cpu ∧
    c2runStep.engine.curBatch.map Placed.sparseDev = some Device.cuda := by
  decide

/-- Claim C6 (counterexample): at world size 3 and leading dimension 4
the non-distributed split path of `put_data_in_device` does not fail —
it returns the mutated batch — and the per-rank shards are uneven (rank
0 gets 2 rows, rank 1 gets 1), falsifying the claim that the path fails
with `ShapeError` and never produces uneven per-rank shards. -/
theorem c6_counterexample :
    (put_data_in_device (mkB 0) Device.cuda Device.cpu false 0 3 true).1.isTup = false ∧
    (put_data_in_device (mkB 0) Device.cuda Device.cpu false 0 3 true).1.denseRows = 2 ∧
    (put_data_in_device (mkB 0) Device.cuda Device.cpu false 1 3 true).1.denseRows = 1 ∧
    (put_data_in_device (mkB 0) Device.cuda Device.cpu false 0 3 true).1.denseRows ≠
      (put_data_in_device (mkB 0) Device.cuda Device.cpu false 1 3 true).1.denseRows := by
  decide

/-- Claim C6 (amended): for a batch of leading dimension 4 at world size
3 the split path succeeds and yields `torch.tensor_split` shards — rank
0 gets rows `[0, 2)`, rank 1 rows `[2, 3)`, rank 2 rows `[3, 4)`:
uneven contiguous shards covering all 4 rows, with no row dropped and no
error raised. -/
theorem c6_amended_uneven_shards (b : PBatch) (dd sd : Device) (r : Nat)
    (_hr : r < 3) (hrows : b.dense.rows = 4) (hoff : b.dense.off = 0) :
    (put_data_in_device b dd sd false r 3 true).1.isTup = false ∧
    (put_data_in_device b dd sd false r 3 true).1.denseRows = tensorSplitLen 4 3 r ∧
    (put_data_in_device b dd sd false r 3 true).1.denseOff = tensorSplitStart 4 3 r ∧
    tensorSplitLen 4 3 0 = 2 ∧ tensorSplitLen 4 3 1 = 1 ∧ tensorSplitLen 4 3 2 = 1 ∧
    tensorSplitStart 4 3 0 = 0 ∧ tensorSplitStart 4 3 1 = 2 ∧ tensorSplitStart 4 3 2 = 3 ∧
    tensorSplitLen 4 3 0 + (tensorSplitLen 4 3 1 + tensorSplitLen 4 3 2) = 4 := by
  refine ⟨?_, ?_, ?_, by decide, by decide, by decide, by decide, by decide, by decide, by decide⟩
  · simp [put_data_in_device, Placed.isTup]
  · simp [put_data_in_device, Placed.denseRows, PTensor.splitShard, PTensor.toDev, hrows]
  · simp [put_data_in_device, Placed.denseOff, PTensor.splitShard, PTensor.toDev, hrows, hoff]

/-- Witness for `c6_amended_uneven_shards` at rank 0 on a concrete
batch. -/
theorem c6_amended_uneven_shards_witness :
    0 < 3 ∧ (mkB 0).dense.rows = 4 ∧
    (put_data_in_device (mkB 0) Device.cuda Device.cpu false 0 3 true).1.denseRows =
      tensorSplitLen 4 3 0 :=
  ⟨by decide, by decide,
    (c6_amended_uneven_shards (mkB 0) Device.cuda Device.cpu 0 (by decide) (by decide)
      (by decide)).2.1⟩

/-- Claim C7 (evaluation of the code at the failing input, showing the
claim does not hold of the code): `reset()` assigns `self._connect =
False` — clobbering the `_connect` method — instead of clearing
`self._connected`.  After connect-reset, `progress()` still sees
`_connected == True`, skips reconnection, and raises `AssertionError` on
the cleared batch without consuming anything; on a never-connected
engine a `progress()` after `reset()` raises `TypeError` (calling the
clobbered attribute). -/
theorem c7_reset_does_not_reconnect :
    c7run.err = some PyErr.assertionError ∧
    consumedIds c7run.evs = [] ∧
    c7run.engine.connected = true ∧
    c7runFresh.err = some PyErr.typeError := by
  decide

/-- Claim C8 (counterexample): once the source is exhausted
(`StopIteration` propagates out of `progress()`), the engine still holds
the previously staged batch: it holds 1 batch, not 0 as claimed. -/
theorem c8_counterexample :
    c8run.err = some PyErr.stopIteration ∧
    distinctBatches (heldIds c8run.engine) = 1 ∧
    distinctBatches (heldIds c8run.engine) ≠ 0 := by
  decide

/-- Claim C8 (amended): at every checkpoint of any `progress()` call the
engine holds at most 2 distinct batches simultaneously (current plus
in-flight next); and when the source is exhausted the call raises
`StopIteration` leaving the engine object unchanged — so it retains the
batch it held (1 batch for a connected engine, not 0). -/
theorem c8_amended_bounded_lookahead (e : Engine) (it : List PBatch) (is_dist : Bool)
    (rank W : Nat) (training : Bool) :
    (∀ n ∈ (e.progress it is_dist rank W training).held, n ≤ 2) ∧
    (e.connected = true → it = [] →
      (e.progress it is_dist rank W training).err = some PyErr.stopIteration ∧
      (e.progress it is_dist rank W training).engine = e) := by
  constructor
  · unfold Engine.progress
    cases hc : e.connected with
    | true =>
      simp only [if_pos rfl]
      exact progressBody_held_le e it is_dist rank W training []
    | false =>
      simp only [Bool.false_eq_true, if_false]
      cases hs : e.connectSlot with
      | true =>
        simp only [if_pos rfl]
        cases it with
        | nil =>
          intro n hn
          simp [Engine.connectRun] at hn
          have := heldIds_le_one e
          omega
        | cons b rest =>
          simp only [Engine.connectRun]
          exact progressBody_held_le _ _ is_dist rank W training _
      | false =>
        simp only [Bool.false_eq_true, if_false]
        intro n hn
        simp at hn
        have := heldIds_le_one e
        omega
  · intro hconn hit
    subst hit
    simp [Engine.progress, hconn, progressBody]

/-- Witness for `c8_amended_bounded_lookahead` on the concrete exhausted
scenario: the single held-count checkpoint of the failing call is within
the bound, and the call raises `StopIteration`. -/
theorem c8_amended_bounded_lookahead_witness :
    1 ≤ 2 ∧
    (c8engine.progress [] false 0 1 true).err = some PyErr.stopIteration :=
  ⟨(c8_amended_bounded_lookahead c8engine [] false 0 1 true).1 1 (by decide),
   ((c8_amended_bounded_lookahead c8engine [] false 0 1 true).2 (by decide) rfl).1⟩

/-- Claim C9 (counterexample): in distributed mode the placement adapter
issues device transfers without the `non_blocking` flag (the `is_dist`
branch of `put_data_in_device` calls `.to(device)` with the blocking
default), so not every transfer it issues is a non-blocking request. -/
theorem c9_counterexample :
    ¬ ∀ ev ∈ (put_data_in_device (mkB 0) Device.cuda Device.cpu true 0 1 true).2,
        evNonBlockingTransfer ev = true := by
  decide

/-- Claim C9 (amended): in non-distributed mode with `non_blocking=True`
(the value both engine call sites pass) every operation the adapter
issues is a non-blocking device transfer; in distributed mode every
operation is a device transfer but with the blocking default; in neither
mode does the adapter issue any wait — synchronization stays with the
engine. -/
theorem c9_amended_transfer_modes (b : PBatch) (dd sd : Device) (rank W : Nat) (nb : Bool) :
    (∀ ev ∈ (put_data_in_device b dd sd false rank W true).2,
        evNonBlockingTransfer ev = true) ∧
    (∀ ev ∈ (put_data_in_device b dd sd true rank W nb).2,
        evIsTransfer ev = true ∧ evNonBlockingTransfer ev = false) ∧
    (∀ ev ∈ (put_data_in_device b dd sd false rank W nb).2,
        evIsTransfer ev = true) := by
  refine ⟨?_, ?_, ?_⟩ <;>
    · intro ev hev
      simp [put_data_in_device] at hev
      rcases hev with rfl | rfl | rfl <;> simp [evNonBlockingTransfer, evIsTransfer]

/-- Witness for `c9_amended_transfer_modes`: the first transfer of a
concrete non-distributed placement is non-blocking, and the first
transfer of a concrete distributed placement is a blocking transfer. -/
theorem c9_amended_transfer_modes_witness :
    evNonBlockingTransfer (Ev.toDevice Device.cuda true) = true ∧
    evNonBlockingTransfer (Ev.toDevice Device.cuda false) = false :=
  ⟨(c9_amended_transfer_modes (mkB 0) Device.cuda Device.cpu 0 1 true).1
      (Ev.toDevice Device.cuda true) (by decide),
   ((c9_amended_transfer_modes (mkB 0) Device.cuda Device.cpu 0 1 false).2.1
      (Ev.toDevice Device.cuda false) (by decide)).2⟩

/-- Claim C10: `put_data_in_device` returns the tuple form exactly in
distributed mode and the mutated `Batch` otherwise; the tuple form lacks
the `dense_features` attribute, so the attribute accesses `progress()`
performs only work in non-distributed mode — concretely, a distributed
`progress()` raises `AttributeError` before consuming anything, while
the non-distributed first `progress()` of the C1 run succeeds. -/
theorem c10_return_type_dichotomy (b : PBatch) (dd sd : Device) (rank W : Nat) (nb : Bool) :
    (put_data_in_device b dd sd true rank W nb).1.isTup = true ∧
    (put_data_in_device b dd sd true rank W nb).1.denseAttr = none ∧
    (put_data_in_device b dd sd false rank W nb).1.isTup = false ∧
    (put_data_in_device b dd sd false rank W nb).1.denseAttr =
      some ((b.dense.toDev dd).splitShard W rank) ∧
    c10run.err = some PyErr.attributeError ∧
    consumedIds c10run.evs = [] ∧
    c1run.1.err = none := by
  refine ⟨rfl, rfl, rfl, rfl, by decide, by decide, by decide⟩

/-! ## List index helper lemmas for the tensor model -/

theorem getD_set_self (l : List Nat) (i a : Nat) (h : i < l.length) :
    (l.set i a).getD i 0 = a := by
  simp [List.getD, List.getElem?_set_self h]

theorem getD_set_ne (l : List Nat) (i k a : Nat) (h : i ≠ k) :
    (l.set i a).getD k 0 = l.getD k 0 := by
  simp [List.getD, List.getElem?_set_ne h]

theorem set_getD_self (l : List Nat) (i : Nat) (h : i < l.length) :
    l.set i (l.getD i 0) = l := by
  simp [List.getD]
  rw [List.getElem?_eq_getElem h]
  simp only [Option.getD_some]
  apply List.ext_getElem
  · simp
  · intro n h1 h2
    rw [List.getElem_set]
    split
    · subst ‹_›; rfl
    · rfl

theorem dimExt_set_self (s : List Nat) (d x : Nat) (h : d < s.length) :
    dimExt (s.set d x) d = x :=
  getD_set_self s d x h

theorem dimExt_set_ne (s : List Nat) (d k x : Nat) (h : d ≠ k) :
    dimExt (s.set d x) k = dimExt s k :=
  getD_set_ne s d k x h

theorem outShape_length (W sd gd : Nat) (s : List Nat) :
    (a2aOutShape W sd gd s).length = s.length := by
  simp [a2aOutShape]

theorem outShape_sd (W sd gd : Nat) (s : List Nat) (hsd : sd < s.length) (hne : sd ≠ gd) :
    dimExt (a2aOutShape W sd gd s) sd = dimExt s sd / W := by
  unfold a2aOutShape
  rw [dimExt_set_ne _ _ _ _ (Ne.symm hne), dimExt_set_self _ _ _ hsd]

theorem outShape_gd (W sd gd : Nat) (s : List Nat) (hgd : gd < s.length) :
    dimExt (a2aOutShape W sd gd s) gd = W * dimExt s gd := by
  unfold a2aOutShape
  rw [dimExt_set_self]
  simpa using hgd

theorem outShape_other (W sd gd k : Nat) (s : List Nat) (hks : k ≠ sd) (hkg : k ≠ gd) :
    dimExt (a2aOutShape W sd gd s) k = dimExt s k := by
  unfold a2aOutShape
  rw [dimExt_set_ne _ _ _ _ (Ne.symm hkg), dimExt_set_ne _ _ _ _ (Ne.symm hks)]

/-- The shape of every output tensor of the collective is `a2aOutShape`
of the common input shape; it does not depend on the receiving rank. -/
theorem allToAll_shape (W sd gd : Nat) (s : List Nat) (inp : Nat → Tensor)
    (hne : sd ≠ gd) (h0 : (inp 0).shape = s) (r : Nat) :
    (allToAll W sd gd inp r).shape = a2aOutShape W sd gd s := by
  show ((inp 0).shape.set sd (dimExt (inp 0).shape sd / W)).set gd
      (W * dimExt ((inp 0).shape.set sd (dimExt (inp 0).shape sd / W)) gd) =
    a2aOutShape W sd gd s
  rw [h0, dimExt_set_ne _ _ _ _ hne]
  rfl

/-- Pointwise evaluation of the collective: at any index whose
gather-coordinate is in range, the output entry of worker `r` is the
input entry of the sending worker `i_gd / Eg` at the remapped index. -/
theorem allToAll_data_eval (W sd gd : Nat) (s : List Nat) (inp : Nat → Tensor)
    (hne : sd ≠ gd) (h0 : (inp 0).shape = s)
    (hq : ∀ j, j < W → (inp j).shape = s)
    (r : Nat) (i : List Nat)
    (higd : i.getD gd 0 < W * dimExt s gd) :
    (allToAll W sd gd inp r).data i =
      (inp (i.getD gd 0 / dimExt s gd)).data
        ((i.set gd (i.getD gd 0 % dimExt s gd)).set sd
          (r * (dimExt s sd / W) + i.getD sd 0)) := by
  have hEg : 0 < dimExt s gd := by
    rcases Nat.eq_zero_or_pos (dimExt s gd) with h | h
    · rw [h, Nat.mul_zero] at higd; omega
    · exact h
  have hj : i.getD gd 0 / dimExt s gd < W :=
    (Nat.div_lt_iff_lt_mul hEg).mpr higd
  show (chunk W r sd (inp (i.getD gd 0 / dimExt ((inp 0).shape.set sd (dimExt (inp 0).shape sd / W)) gd))).data
      (i.set gd (i.getD gd 0 % dimExt ((inp 0).shape.set sd (dimExt (inp 0).shape sd / W)) gd)) = _
  rw [h0, dimExt_set_ne _ _ _ _ hne]
  show (inp (i.getD gd 0 / dimExt s gd)).data
      ((i.set gd (i.getD gd 0 % dimExt s gd)).set sd
        (r * (dimExt (inp (i.getD gd 0 / dimExt s gd)).shape sd / W) +
          (i.set gd (i.getD gd 0 % dimExt s gd)).getD sd 0)) = _
  rw [hq _ hj, getD_set_ne _ _ _ _ (Ne.symm hne)]

/-- Claim C3: for world size `W` and a common input shape `s` with
extent `E` along `scatter_dim`, when `W` divides `E` the checked
collective succeeds and every output tensor has extent `E / W` along
`scatter_dim`, extent `original_gather_extent * W` along `gather_dim`,
and all other dimensions (and the rank) unchanged; when `E mod W` is not
0 it fails with `ShapeError`.  (The operator is modelled from the spec;
its implementation is outside src/, only its test driver is present.) -/
theorem c3_shape_law (W sd gd : Nat) (s : List Nat) (inp : Nat → Tensor)
    (_hW : 0 < W) (hsd : sd < s.length) (hgd : gd < s.length) (hne : sd ≠ gd)
    (h0 : (inp 0).shape = s) :
    (dimExt s sd % W = 0 →
      allToAllChecked W sd gd inp = Except.ok (allToAll W sd gd inp) ∧
      ∀ r : Nat,
        dimExt (allToAll W sd gd inp r).shape sd = dimExt s sd / W ∧
        dimExt (allToAll W sd gd inp r).shape gd = dimExt s gd * W ∧
        (∀ k, k < s.length → k ≠ sd → k ≠ gd →
          dimExt (allToAll W sd gd inp r).shape k = dimExt s k) ∧
        (allToAll W sd gd inp r).shape.length = s.length) ∧
    (dimExt s sd % W ≠ 0 →
      allToAllChecked W sd gd inp = Except.error A2AErr.shapeError) := by
  have hmain : ∀ r : Nat, (allToAll W sd gd inp r).shape = a2aOutShape W sd gd s :=
    allToAll_shape W sd gd s inp hne h0
  constructor
  · intro hdiv
    constructor
    · simp [allToAllChecked, h0, hdiv]
    · intro r
      rw [hmain r]
      refine ⟨outShape_sd W sd gd s hsd hne, ?_, ?_, outShape_length W sd gd s⟩
      · rw [outShape_gd W sd gd s hgd, Nat.mul_comm]
      · intro k _ hks hkg
        exact outShape_other W sd gd k s hks hkg
  · intro hdiv
    simp [allToAllChecked, h0, hdiv]

/-- Witness for `c3_shape_law`: world size 2 on shape `[4, 6]` with
scatter dimension 0 and gather dimension 1 — output extents 2 and 12. -/
theorem c3_shape_law_witness :
    0 < 2 ∧ (wFam 0).shape = [4, 6] ∧ dimExt [4, 6] 0 % 2 = 0 ∧
    allToAllChecked 2 0 1 wFam = Except.ok (allToAll 2 0 1 wFam) ∧
    dimExt (allToAll 2 0 1 wFam 0).shape 0 = 2 ∧
    dimExt (allToAll 2 0 1 wFam 0).shape 1 = 12 :=
  have h := (c3_shape_law 2 0 1 [4, 6] wFam (by decide) (by decide) (by decide)
    (by decide) rfl).1 (by decide)
  ⟨by decide, rfl, by decide, h.1, by simpa using (h.2 0).1, by simpa using (h.2 0).2.1⟩

/-- Claim C5: for any worker family sharing shape `s` whose extent along
axis `a = sd` is divisible by the world size, applying the collective
with `(scatter_dim, gather_dim) = (sd, gd)` and then with the swapped
pair `(gd, sd)` returns exactly the original tensor of every worker —
same shape and bitwise-equal values at every valid index (the operation
only reorders and partitions data).  (The operator is modelled from the
spec; its implementation is outside src/.) -/
theorem c5_round_trip (W sd gd : Nat) (s : List Nat) (inp : Nat → Tensor)
    (hW : 0 < W) (hsd : sd < s.length) (hgd : gd < s.length) (hne : sd ≠ gd)
    (hdiv : dimExt s sd % W = 0)
    (hshape : ∀ j, j < W → (inp j).shape = s)
    (r : Nat) (hr : r < W) :
    teq (allToAll W gd sd (allToAll W sd gd inp) r) (inp r) := by
  have h00 : (inp 0).shape = s := hshape 0 hW
  have hA : ∀ j, (allToAll W sd gd inp j).shape = a2aOutShape W sd gd s :=
    allToAll_shape W sd gd s inp hne h00
  have hc : W * (dimExt s sd / W) = dimExt s sd :=
    Nat.mul_div_cancel' (Nat.dvd_of_mod_eq_zero hdiv)
  have hd1 : dimExt (a2aOutShape W sd gd s) sd = dimExt s sd / W :=
    outShape_sd W sd gd s hsd hne
  have hd2q : dimExt (a2aOutShape W sd gd s) gd / W = dimExt s gd := by
    rw [outShape_gd W sd gd s hgd]
    exact Nat.mul_div_cancel_left _ hW
  have hset_sd : s.set sd (dimExt s sd) = s := set_getD_self s sd hsd
  have hset_gd : s.set gd (dimExt s gd) = s := set_getD_self s gd hgd
  constructor
  · rw [hshape r hr,
      allToAll_shape W gd sd (a2aOutShape W sd gd s) (allToAll W sd gd inp)
        (Ne.symm hne) (hA 0) r]
    calc a2aOutShape W gd sd (a2aOutShape W sd gd s)
        = ((a2aOutShape W sd gd s).set gd (dimExt (a2aOutShape W sd gd s) gd / W)).set sd
            (W * dimExt (a2aOutShape W sd gd s) sd) := rfl
      _ = ((a2aOutShape W sd gd s).set gd (dimExt s gd)).set sd (dimExt s sd) := by
            rw [hd1, hd2q, hc]
      _ = (((s.set sd (dimExt s sd / W)).set gd (W * dimExt s gd)).set gd
            (dimExt s gd)).set sd (dimExt s sd) := rfl
      _ = ((s.set sd (dimExt s sd / W)).set gd (dimExt s gd)).set sd (dimExt s sd) := by
            rw [List.set_set]
      _ = ((s.set sd (dimExt s sd / W)).set sd (dimExt s sd)).set gd (dimExt s gd) :=
            List.set_comm _ _ _ (Ne.symm hne)
      _ = (s.set sd (dimExt s sd)).set gd (dimExt s gd) := by rw [List.set_set]
      _ = s := by rw [hset_sd, hset_gd]
  · intro i hvi
    rw [hshape r hr] at hvi
    obtain ⟨hlen, hvals⟩ := hvi
    have hisd : i.getD sd 0 < dimExt s sd := hvals sd hsd
    have higd : i.getD gd 0 < dimExt s gd := hvals gd hgd
    have hEg0 : 0 < dimExt s gd := lt_of_le_of_lt (Nat.zero_le _) higd
    have hb1 : i.getD sd 0 < W * dimExt (a2aOutShape W sd gd s) sd := by
      rw [hd1, hc]; exact hisd
    rw [allToAll_data_eval W gd sd (a2aOutShape W sd gd s) (allToAll W sd gd inp)
      (Ne.symm hne) (hA 0) (fun j _ => hA j) r i hb1, hd1, hd2q]
    set u := (i.set sd (i.getD sd 0 % (dimExt s sd / W))).set gd
      (r * dimExt s gd + i.getD gd 0) with hu
    have hu_gd : u.getD gd 0 = r * dimExt s gd + i.getD gd 0 := by
      rw [hu]
      exact getD_set_self _ gd _ (by rw [List.length_set, hlen]; exact hgd)
    have hu_sd : u.getD sd 0 = i.getD sd 0 % (dimExt s sd / W) := by
      rw [hu, getD_set_ne _ _ _ _ (Ne.symm hne)]
      exact getD_set_self i sd _ (by rw [hlen]; exact hsd)
    have hb2 : u.getD gd 0 < W * dimExt s gd := by
      rw [hu_gd]
      calc r * dimExt s gd + i.getD gd 0 < r * dimExt s gd + dimExt s gd := by omega
        _ = (r + 1) * dimExt s gd := by ring
        _ ≤ W * dimExt s gd := Nat.mul_le_mul_right _ hr
    rw [allToAll_data_eval W sd gd s inp hne h00 hshape
      (i.getD sd 0 / (dimExt s sd / W)) u hb2]
    have hq_r : u.getD gd 0 / dimExt s gd = r := by
      rw [hu_gd, Nat.mul_comm, Nat.mul_add_div hEg0, Nat.div_eq_of_lt higd, Nat.add_zero]
    have hm_g : u.getD gd 0 % dimExt s gd = i.getD gd 0 := by
      rw [hu_gd, Nat.mul_comm, Nat.mul_add_mod, Nat.mod_eq_of_lt higd]
    have hidx_sd : i.getD sd 0 / (dimExt s sd / W) * (dimExt s sd / W) + u.getD sd 0 =
        i.getD sd 0 := by
      rw [hu_sd, Nat.mul_comm]
      exact Nat.div_add_mod (i.getD sd 0) (dimExt s sd / W)
    rw [hq_r, hm_g, hidx_sd]
    have hfinal : (u.set gd (i.getD gd 0)).set sd (i.getD sd 0) = i := by
      rw [hu, List.set_set, List.set_comm _ _ _ (Ne.symm hne), List.set_set,
        set_getD_self i sd (by rw [hlen]; exact hsd),
        set_getD_self i gd (by rw [hlen]; exact hgd)]
    rw [hfinal]

/-- Witness for `c5_round_trip`: world size 2, shape `[4, 6]`, swap of
the pair `(0, 1)` on the concrete family `wFam`, worker 0. -/
theorem c5_round_trip_witness :
    0 < 2 ∧ teq (allToAll 2 1 0 (allToAll 2 0 1 wFam) 0) (wFam 0) :=
  ⟨by decide,
   c5_round_trip 2 0 1 [4, 6] wFam (by decide) (by decide) (by decide) (by decide)
     (by decide) (fun j _ => rfl) 0 (by decide)⟩

theorem mem_idxList (s : List Nat) : ∀ i : List Nat, i ∈ idxList s ↔ validIdx s i := by
  induction s with
  | nil =>
    intro i
    simp only [idxList, List.mem_singleton, validIdx, List.length_nil]
    constructor
    · rintro rfl; simp
    · rintro ⟨h1, _⟩
      exact List.length_eq_zero.mp h1
  | cons e rest ih =>
    intro i
    simp only [idxList, List.mem_flatMap, List.mem_map, List.mem_range]
    constructor
    · rintro ⟨k, hk, j, hj, rfl⟩
      obtain ⟨hl, hv⟩ := (ih j).mp hj
      refine ⟨by simp [hl], ?_⟩
      intro m hm
      cases m with
      | zero => simpa using hk
      | succ n =>
        simp only [List.getD_cons_succ]
        exact hv n (by simpa using hm)
    · rintro ⟨hl, hv⟩
      cases i with
      | nil => simp at hl
      | cons k j =>
        refine ⟨k, by simpa using hv 0 (by simp), j, (ih j).mpr ⟨by simpa using hl, ?_⟩, rfl⟩
        intro m hm
        have := hv (m + 1) (by simpa using hm)
        simpa using this

theorem mem_idxFinset (s i : List Nat) : i ∈ idxFinset s ↔ validIdx s i := by
  rw [idxFinset, List.mem_toFinset]
  exact mem_idxList s i

theorem dimExt_def (s : List Nat) (d : Nat) : dimExt s d = s.getD d 0 := rfl

theorem a2aIdxMap_inv (cEx gEx sdim gdim : Nat) (hne : sdim ≠ gdim)
    (r : Nat) (i : List Nat)
    (hsl : sdim < i.length) (hgl : gdim < i.length)
    (hc0 : 0 < cEx) (hisd : i.getD sdim 0 < cEx) :
    a2aIdxMap gEx cEx gdim sdim (a2aIdxMap cEx gEx sdim gdim (r, i)) = (r, i) := by
  simp only [a2aIdxMap]
  have hu_sd : ((i.set gdim (i.getD gdim 0 % gEx)).set sdim
      (r * cEx + i.getD sdim 0)).getD sdim 0 = r * cEx + i.getD sdim 0 :=
    getD_set_self _ sdim _ (by rw [List.length_set]; exact hsl)
  have hu_gd : ((i.set gdim (i.getD gdim 0 % gEx)).set sdim
      (r * cEx + i.getD sdim 0)).getD gdim 0 = i.getD gdim 0 % gEx := by
    rw [getD_set_ne _ _ _ _ hne]
    exact getD_set_self i gdim _ hgl
  simp only [Prod.mk.injEq]
  constructor
  · rw [hu_sd, Nat.mul_comm, Nat.mul_add_div hc0, Nat.div_eq_of_lt hisd, Nat.add_zero]
  · rw [hu_sd, hu_gd, Nat.mul_comm r cEx, Nat.mul_add_mod, Nat.mod_eq_of_lt hisd,
      Nat.mul_comm _ gEx, Nat.div_add_mod, List.set_set, List.set_comm _ _ _ hne,
      List.set_set, set_getD_self i gdim hgl, set_getD_self i sdim hsl]

/-- Claim C4: the dual all-to-all is its own exact linear-map adjoint
with the two axis roles exchanged — the gradient rule registered for the
differentiable primitive (per the spec, the forward operator applied to
the output gradient with `scatter_dim` and `gather_dim` swapped)
satisfies the adjoint identity: the inner product of the forward output
with any output cotangent `y` equals the inner product of the input with
the swapped-axes operator applied to `y`, exactly, with no approximation.
(The operator is modelled from the spec; its implementation is outside
src/.) -/
theorem c4_adjoint (W sd gd : Nat) (s : List Nat) (x y : Nat → Tensor)
    (hW : 0 < W) (hsd : sd < s.length) (hgd : gd < s.length) (hne : sd ≠ gd)
    (hdiv : dimExt s sd % W = 0)
    (hx : ∀ j, j < W → (x j).shape = s)
    (hy : ∀ j, j < W → (y j).shape = a2aOutShape W sd gd s) :
    innerFam W (a2aOutShape W sd gd s) (allToAll W sd gd x) y =
      innerFam W s x (allToAll W gd sd y) := by
  have h00x : (x 0).shape = s := hx 0 hW
  have h00y : (y 0).shape = a2aOutShape W sd gd s := hy 0 hW
  have hc : W * (dimExt s sd / W) = dimExt s sd :=
    Nat.mul_div_cancel' (Nat.dvd_of_mod_eq_zero hdiv)
  have hs1sd : dimExt (a2aOutShape W sd gd s) sd = dimExt s sd / W :=
    outShape_sd W sd gd s hsd hne
  have hs1gd : dimExt (a2aOutShape W sd gd s) gd = W * dimExt s gd :=
    outShape_gd W sd gd s hgd
  have hs1q : dimExt (a2aOutShape W sd gd s) gd / W = dimExt s gd := by
    rw [hs1gd]; exact Nat.mul_div_cancel_left _ hW
  have hs1len : (a2aOutShape W sd gd s).length = s.length := outShape_length W sd gd s
  have lhs_eq : innerFam W (a2aOutShape W sd gd s) (allToAll W sd gd x) y =
      Finset.sum (Finset.range W ×ˢ idxFinset (a2aOutShape W sd gd s))
        (fun p => (allToAll W sd gd x p.1).data p.2 * (y p.1).data p.2) := by
    rw [Finset.sum_product]; rfl
  have rhs_eq : innerFam W s x (allToAll W gd sd y) =
      Finset.sum (Finset.range W ×ˢ idxFinset s)
        (fun p => (x p.1).data p.2 * (allToAll W gd sd y p.1).data p.2) := by
    rw [Finset.sum_product]; rfl
  rw [lhs_eq, rhs_eq]
  refine Finset.sum_nbij'
    (a2aIdxMap (dimExt s sd / W) (dimExt s gd) sd gd)
    (a2aIdxMap (dimExt s gd) (dimExt s sd / W) gd sd) ?_ ?_ ?_ ?_ ?_
  · rintro ⟨r, i⟩ hp
    rw [Finset.mem_product, Finset.mem_range, mem_idxFinset] at hp
    obtain ⟨hr, hlen, hvals⟩ := hp
    have hilen : i.length = s.length := by rw [hlen, hs1len]
    have hisd : i.getD sd 0 < dimExt s sd / W := by
      have h := hvals sd (by rw [hs1len]; exact hsd)
      rwa [← dimExt_def (a2aOutShape W sd gd s) sd, hs1sd] at h
    have higd : i.getD gd 0 < W * dimExt s gd := by
      have h := hvals gd (by rw [hs1len]; exact hgd)
      rwa [← dimExt_def (a2aOutShape W sd gd s) gd, hs1gd] at h
    have hEg0 : 0 < dimExt s gd := by
      rcases Nat.eq_zero_or_pos (dimExt s gd) with h | h
      · rw [h, Nat.mul_zero] at higd; omega
      · exact h
    rw [Finset.mem_product, Finset.mem_range, mem_idxFinset]
    simp only [a2aIdxMap]
    refine ⟨(Nat.div_lt_iff_lt_mul hEg0).mpr higd, ?_, ?_⟩
    · simp [List.length_set, hilen]
    · intro k hk
      by_cases hks : k = sd
      · rw [hks, getD_set_self _ sd _ (by rw [List.length_set, hilen]; exact hsd),
          ← dimExt_def s sd]
        calc r * (dimExt s sd / W) + i.getD sd 0
            < r * (dimExt s sd / W) + dimExt s sd / W := by omega
          _ = (r + 1) * (dimExt s sd / W) := by ring
          _ ≤ W * (dimExt s sd / W) := Nat.mul_le_mul_right _ hr
          _ = dimExt s sd := hc
      · by_cases hkg : k = gd
        · rw [hkg, getD_set_ne _ _ _ _ hne, getD_set_self i gd _ (by rw [hilen]; exact hgd),
            ← dimExt_def s gd]
          exact Nat.mod_lt _ hEg0
        · rw [getD_set_ne _ _ _ _ (Ne.symm hks), getD_set_ne _ _ _ _ (Ne.symm hkg)]
          have h := hvals k (by rw [hs1len]; exact hk)
          rwa [← dimExt_def (a2aOutShape W sd gd s) k,
            outShape_other W sd gd k s hks hkg, dimExt_def s k] at h
  · rintro ⟨q, u⟩ hp
    rw [Finset.mem_product, Finset.mem_range, mem_idxFinset] at hp
    obtain ⟨hq, hulen, huvals⟩ := hp
    have husd : u.getD sd 0 < dimExt s sd := by
      have h := huvals sd hsd
      rwa [← dimExt_def s sd] at h
    have hugd : u.getD gd 0 < dimExt s gd := by
      have h := huvals gd hgd
      rwa [← dimExt_def s gd] at h
    have hc0 : 0 < dimExt s sd / W := by
      rcases Nat.eq_zero_or_pos (dimExt s sd / W) with h | h
      · rw [h, Nat.mul_zero] at hc; omega
      · exact h
    rw [Finset.mem_product, Finset.mem_range, mem_idxFinset]
    simp only [a2aIdxMap]
    refine ⟨(Nat.div_lt_iff_lt_mul hc0).mpr (by rw [← hc] at husd; exact husd), ?_, ?_⟩
    · simp [List.length_set, hulen, hs1len]
    · intro k hk
      by_cases hkg : k = gd
      · rw [hkg, getD_set_self _ gd _ (by rw [List.length_set, hulen]; exact hgd),
          ← dimExt_def (a2aOutShape W sd gd s) gd, hs1gd]
        calc q * dimExt s gd + u.getD gd 0
            < q * dimExt s gd + dimExt s gd := by omega
          _ = (q + 1) * dimExt s gd := by ring
          _ ≤ W * dimExt s gd := Nat.mul_le_mul_right _ hq
      · by_cases hks : k = sd
        · rw [hks, getD_set_ne _ _ _ _ (Ne.symm hne), getD_set_self u sd _ (by rw [hulen]; exact hsd),
            ← dimExt_def (a2aOutShape W sd gd s) sd, hs1sd]
          exact Nat.mod_lt _ hc0
        · rw [getD_set_ne _ _ _ _ (Ne.symm hkg), getD_set_ne _ _ _ _ (Ne.symm hks)]
          have h := huvals k (by rw [← hs1len]; exact hk)
          rwa [← dimExt_def s k, ← outShape_other W sd gd k s hks hkg,
            dimExt_def (a2aOutShape W sd gd s) k] at h
  · rintro ⟨r, i⟩ hp
    rw [Finset.mem_product, Finset.mem_range, mem_idxFinset] at hp
    obtain ⟨hr, hlen, hvals⟩ := hp
    have hilen : i.length = s.length := by rw [hlen, hs1len]
    have hisd : i.getD sd 0 < dimExt s sd / W := by
      have h := hvals sd (by rw [hs1len]; exact hsd)
      rwa [← dimExt_def (a2aOutShape W sd gd s) sd, hs1sd] at h
    exact a2aIdxMap_inv (dimExt s sd / W) (dimExt s gd) sd gd hne r i
      (by rw [hilen]; exact hsd) (by rw [hilen]; exact hgd)
      (lt_of_le_of_lt (Nat.zero_le _) hisd) hisd
  · rintro ⟨q, u⟩ hp
    rw [Finset.mem_product, Finset.mem_range, mem_idxFinset] at hp
    obtain ⟨hq, hulen, huvals⟩ := hp
    have hugd : u.getD gd 0 < dimExt s gd := by
      have h := huvals gd hgd
      rwa [← dimExt_def s gd] at h
    exact a2aIdxMap_inv (dimExt s gd) (dimExt s sd / W) gd sd (Ne.symm hne) q u
      (by rw [hulen]; exact hgd) (by rw [hulen]; exact hsd)
      (lt_of_le_of_lt (Nat.zero_le _) hugd) hugd
  · rintro ⟨r, i⟩ hp
    rw [Finset.mem_product, Finset.mem_range, mem_idxFinset] at hp
    obtain ⟨hr, hlen, hvals⟩ := hp
    have hilen : i.length = s.length := by rw [hlen, hs1len]
    have hisd : i.getD sd 0 < dimExt s sd / W := by
      have h := hvals sd (by rw [hs1len]; exact hsd)
      rwa [← dimExt_def (a2aOutShape W sd gd s) sd, hs1sd] at h
    have higd : i.getD gd 0 < W * dimExt s gd := by
      have h := hvals gd (by rw [hs1len]; exact hgd)
      rwa [← dimExt_def (a2aOutShape W sd gd s) gd, hs1gd] at h
    have hc0 : 0 < dimExt s sd / W := lt_of_le_of_lt (Nat.zero_le _) hisd
    simp only [a2aIdxMap]
    rw [allToAll_data_eval W sd gd s x hne h00x hx r i higd]
    congr 1
    have hu_sd_val : ((i.set gd (i.getD gd 0 % dimExt s gd)).set sd
        (r * (dimExt s sd / W) + i.getD sd 0)).getD sd 0 =
        r * (dimExt s sd / W) + i.getD sd 0 :=
      getD_set_self _ sd _ (by rw [List.length_set, hilen]; exact hsd)
    have hub : ((i.set gd (i.getD gd 0 % dimExt s gd)).set sd
        (r * (dimExt s sd / W) + i.getD sd 0)).getD sd 0 <
        W * dimExt (a2aOutShape W sd gd s) sd := by
      rw [hu_sd_val, hs1sd]
      calc r * (dimExt s sd / W) + i.getD sd 0
          < r * (dimExt s sd / W) + dimExt s sd / W := by omega
        _ = (r + 1) * (dimExt s sd / W) := by ring
        _ ≤ W * (dimExt s sd / W) := Nat.mul_le_mul_right _ hr
    rw [allToAll_data_eval W gd sd (a2aOutShape W sd gd s) y (Ne.symm hne) h00y hy
      (i.getD gd 0 / dimExt s gd) _ hub, hs1sd, hs1q]
    have hinv := a2aIdxMap_inv (dimExt s sd / W) (dimExt s gd) sd gd hne r i
      (by rw [hilen]; exact hsd) (by rw [hilen]; exact hgd) hc0 hisd
    simp only [a2aIdxMap, Prod.mk.injEq] at hinv
    rw [hinv.1, hinv.2]

/-- Witness for `c4_adjoint`: world size 2, shape `[4, 6]`, scatter 0,
gather 1, concrete families `wFam` (input) and `wFamOut` (output
cotangent, on the output shape `[2, 12]`). -/
theorem c4_adjoint_witness :
    0 < 2 ∧
    innerFam 2 (a2aOutShape 2 0 1 [4, 6]) (allToAll 2 0 1 wFam) wFamOut =
      innerFam 2 [4, 6] wFam (allToAll 2 1 0 wFamOut) :=
  ⟨by decide,
   c4_adjoint 2 0 1 [4, 6] wFam wFamOut (by decide) (by decide) (by decide) (by decide)
     (by decide) (fun j _ => rfl) (fun j _ => rfl)⟩
